import Mathlib

/-!
Verification of the meadowdata scheduling kernel against its specification.

The development shallowly embeds the Python sources:
  src/meadowflow/jobs.py      (payloads, Run action, overrides, runner choice,
                               event filter / state predicate, scope wrapper)
  src/nextbeat/scheduler.py   (two-phase loading, subscription wiring)

The event log itself (meadowflow/event_log.py) is not part of the given
sources; its operations are modelled from the specification where needed and
are marked as such in their doc comments.
-/

/-- JobState from meadowflow/jobs.py: the Literal of the six lifecycle
states of a job. -/
inductive JobState where
  | waiting
  | runRequested
  | running
  | succeeded
  | cancelled
  | failed
deriving DecidableEq, Repr

/-- The three failure kinds of JobPayload.failure_type. -/
inductive FailureType where
  | pythonException
  | nonZeroReturnCode
  | runRequestFailed
deriving DecidableEq, Repr

/-- JobPayload from meadowflow/jobs.py: the Event.payload for job-related
events.  Python values the engine does not inspect (result_value, effects,
raised_exception) are
embedded as strings, which is all the verified code ever needs of them. -/
structure JobPayload where
  requestId : Option String
  state : JobState
  failureType : Option FailureType
  pid : Option Nat
  resultValue : Option String
  effects : Option String
  raisedException : Option String
  returnCode : Option Int
deriving DecidableEq, Repr

/-- Builds a JobPayload with only the two positional fields, all optional
fields at their Python defaults (None). -/
def mkJobPayload (rid : Option String) (st : JobState) : JobPayload :=
  ⟨rid, st, none, none, none, none, none, none⟩

/-- TopicName (meadowflow/topic_names.py, not under src/): an ordered
mapping of string keys to primitive values, embedded as an association
list.  Keys are unique in every name the system constructs. -/
abbrev TopicName := List (String × String)

/-- Key lookup in a TopicName, first binding wins (as in a Python dict with
unique keys). -/
def tnLookup : TopicName → String → Option String
  | [], _ => none
  | kv :: rest, key => if kv.1 = key then some kv.2 else tnLookup rest key

/-- Python dict membership: does the name contain the key. -/
def tnHasKey (n : TopicName) (k : String) : Bool :=
  (tnLookup n k).isSome

/-- Python dict equality for topic names: equal iff their key/value sets are
equal (order-insensitive), as the spec requires for frozen topic names. -/
def tnEq (a b : TopicName) : Bool :=
  a.all (fun kv => tnLookup b kv.1 = some kv.2) &&
    b.all (fun kv => tnLookup a kv.1 = some kv.2)

/-- Modelled from the spec: the distinguished sentinel CURRENT_JOB from
meadowflow/topic_names.py (not under src/), naming the job under evaluation
in a predicate context. -/
def CURRENT_JOB : TopicName := [("base", "__CURRENT_JOB__")]

/-- ScopeValues (meadowflow/scopes.py, not under src/): an ordered mapping
of string keys to values uniquely identifying a scope instantiation,
embedded as an association list with unique keys. -/
abbrev ScopeValues := List (String × String)

/-- An event on the job-event data path: an immutable triple of topic name,
timestamp and JobPayload. -/
structure JobEvent where
  topic : TopicName
  timestamp : Nat
  payload : JobPayload
deriving DecidableEq, Repr

/-- The in-memory event log, in append order (oldest first).  The log class
itself is not under src/; the operations below are modelled from the spec. -/
abbrev EventLog := List JobEvent

/-- Modelled from the spec: EventLog.last_event(topic, t) is the
maximum-timestamp event on the topic with timestamp at most t, absent if
there is none; ties are broken towards the latest append. -/
def lastEvent (log : EventLog) (tn : TopicName) (t : Nat) : Option JobEvent :=
  (List.filter (fun e => tnEq e.topic tn && decide (e.timestamp ≤ t)) log).getLast?

/-- Modelled from the spec: EventLog.curr_timestamp is the timestamp of the
most recent append, or 0 if there has been none. -/
def currTimestamp (log : EventLog) : Nat :=
  match log.getLast? with
  | some e => e.timestamp
  | none => 0

/-- Modelled from the spec: EventLog.append_event atomically assigns the
next timestamp and records the event at the end of the log. -/
def appendEvent (log : EventLog) (tn : TopicName) (p : JobPayload) : EventLog :=
  log ++ [⟨tn, currTimestamp log + 1, p⟩]

/-- Modelled from the spec: EventLog.events_and_state(topic, low, high)
returns the topic's events in ascending order, with enough history to
reconstruct the state as of low (the last event at or before low) and every
transition up to high. -/
def eventsAndState (log : EventLog) (tn : TopicName) (low high : Nat) : List JobEvent :=
  (match lastEvent log tn low with
   | some e => [e]
   | none => []) ++
    List.filter (fun e => tnEq e.topic tn && decide (low < e.timestamp) && decide (e.timestamp ≤ high)) log

/-- AnyJobStateEventFilter from meadowflow/jobs.py: triggers when any of
job_names is in any of on_states. -/
structure AnyJobStateEventFilter where
  jobNames : List TopicName
  onStates : List JobState

/-- AnyJobStateEventFilter.apply from meadowflow/jobs.py line 383: an event
matches iff its payload state is among on_states. -/
def AnyJobStateEventFilter.apply (f : AnyJobStateEventFilter) (e : JobEvent) : Bool :=
  decide (e.payload.state ∈ f.onStates)

/-- The tuple of events delivered for one topic of a trigger's wake set in
the current notification window (built by the scheduler from
events_and_state), keyed by topic name. -/
abbrev DeliveredEvents := List (TopicName × List JobEvent)

/-- Looks up the delivered event tuple for a topic (Python dict access on
the events dictionary the scheduler builds). -/
def deliveredFor (d : DeliveredEvents) (tn : TopicName) : List JobEvent :=
  match List.find? (fun p => tnEq p.1 tn) d with
  | some p => p.2
  | none => []

/-- The latest event observed for a topic in the delivered window: the last
element of its delivered tuple (tuples are in ascending timestamp order). -/
def latestDelivered (d : DeliveredEvents) (tn : TopicName) : Option JobEvent :=
  (deliveredFor d tn).getLast?

/-- Modelled from the spec: the materialization of an AnyJobStateEventFilter
trigger over a notification window (the composition lives in
meadowflow/topic.py and the meadowflow scheduler, neither under src/).  Per
the spec's canonical-variant sentence, the trigger is active when any
job_name's latest observed event in the window has state in on_states. -/
def AnyJobStateEventFilter.isActiveWindow (f : AnyJobStateEventFilter) (d : DeliveredEvents) : Bool :=
  f.jobNames.any (fun n =>
    match latestDelivered d n with
    | some e => f.apply e
    | none => false)

/-- AllJobStatePredicate from meadowflow/jobs.py: the condition is met when
all of job_names are in one of on_states; job_names can include
CURRENT_JOB. -/
structure AllJobStatePredicate where
  jobNames : List TopicName
  onStates : List JobState

/-- The CURRENT_JOB substitution performed inside
AllJobStatePredicate.apply (meadowflow/jobs.py lines 407-410). -/
def substCurrentJob (n current : TopicName) : TopicName :=
  if tnEq n CURRENT_JOB then current else n

/-- AllJobStatePredicate.apply from meadowflow/jobs.py lines 400-420: for
every job name (with CURRENT_JOB replaced by the current job), the most
recent event at high_timestamp must exist and be in one of on_states.  The
low timestamp is received but not consulted, exactly as in the source. -/
def AllJobStatePredicate.apply (p : AllJobStatePredicate) (log : EventLog)
    (lowTimestamp highTimestamp : Nat) (currentJobName : TopicName) : Bool :=
  let _ := lowTimestamp
  p.jobNames.all (fun n =>
    match lastEvent log (substCurrentJob n currentJobName) highTimestamp with
    | some e => decide (e.payload.state ∈ p.onStates)
    | none => false)

/-- An argument value of a runner function.  Besides plain values
(embedded as strings) an argument may be a latest-event marker
(meadowflow/events_arg.py, not under src/), which run-time substitution
replaces by the named topic's latest event. -/
inductive Arg where
  | strVal (s : String)
  | latestEvent (tn : TopicName)
  | resolvedEvent (e : Option JobEvent)
deriving DecidableEq, Repr

/-- Modelled from the spec: MeadowRunFunction, the inner function
descriptor of a remote deployed function
(meadowrun/deployed_function.py, not under src/). -/
structure MeadowRunFunction where
  functionName : String
  functionArgs : List Arg
  functionKwargs : List (String × Arg)
deriving DecidableEq, Repr

/-- Modelled from the spec: MeadowRunDeployedFunction, the remote
deployed-function runner-function variant, carrying an
environment-variable map (meadowrun/deployed_function.py, not under
src/). -/
structure MeadowRunDeployedFunction where
  deployment : String
  meadowrunFunction : MeadowRunFunction
  environmentVariables : List (String × String)
deriving DecidableEq, Repr

/-- Modelled from the spec: MeadowRunDeployedCommand, the remote
deployed-command runner-function variant, carrying context variables and an
environment-variable map (meadowrun/deployed_function.py, not under
src/). -/
structure MeadowRunDeployedCommand where
  deployment : String
  commandLine : List String
  contextVariables : List (String × String)
  environmentVariables : List (String × String)
deriving DecidableEq, Repr

/-- LocalFunction from meadowflow/jobs.py: a function pointer in the
current codebase with arguments for calling it. -/
structure LocalFunction where
  functionPointer : String
  functionArgs : List Arg
  functionKwargs : List (String × Arg)
deriving DecidableEq, Repr

/-- JobRunnerFunction from meadowflow/jobs.py: the closed union of the
three runner-function variants. -/
inductive JobRunnerFunction where
  | localFunction (lf : LocalFunction)
  | deployedCommand (dc : MeadowRunDeployedCommand)
  | deployedFunction (df : MeadowRunDeployedFunction)
deriving DecidableEq, Repr

/-- The environment-variable map of a runner function.  LocalFunction has
no such map; the two remote variants carry one. -/
def envOf : JobRunnerFunction → List (String × String)
  | .localFunction _ => []
  | .deployedCommand dc => dc.environmentVariables
  | .deployedFunction df => df.environmentVariables

/-- Replaces the environment-variable map of a remote runner function
(identity on LocalFunction, which has none). -/
def setEnvOf : JobRunnerFunction → List (String × String) → JobRunnerFunction
  | .localFunction lf, _ => .localFunction lf
  | .deployedCommand dc, env => .deployedCommand { dc with environmentVariables := env }
  | .deployedFunction df, env => .deployedFunction { df with environmentVariables := env }

/-- True for the two remote runner-function variants. -/
def isRemoteVariant : JobRunnerFunction → Bool
  | .localFunction _ => false
  | .deployedCommand _ => true
  | .deployedFunction _ => true

/-- Python dict.update with a single-entry dict: overwrites the binding in
place if the key is present, otherwise appends the new binding at the
end (insertion order). -/
def envUpdate (env : List (String × String)) (k v : String) : List (String × String) :=
  if env.any (fun kv => kv.1 = k) then
    env.map (fun kv => if kv.1 = k then (k, v) else kv)
  else env ++ [(k, v)]

/-- JobRunOverrides from meadowflow/jobs.py: overrides for a manual run of
a job. -/
structure JobRunOverrides where
  functionArgs : Option (List Arg)
  functionKwargs : Option (List (String × Arg))
  contextVariables : Option (List (String × String))
  meadowdbUserspace : Option String

/-- Python truthiness of an optional list (None and the empty list are
falsy). -/
def optListTruthy {α : Type} (o : Option (List α)) : Bool :=
  match o with
  | some l => !l.isEmpty
  | none => false

/-- Python truthiness of an optional string (None and the empty string are
falsy). -/
def optStrTruthy (o : Option String) : Bool :=
  match o with
  | some s => decide (s ≠ "")
  | none => false

/-- The error kinds raised on the Run data path.  The source raises
ValueError with distinct messages; the constructors record which raise
site fired. -/
inductive RunError where
  | overrideArgsNotApplicable
  | overrideContextNotApplicable
  | overrideUserspaceNotApplicable
  | noCompatibleRunner
deriving DecidableEq, Repr

/-- The function_args replacement value: replaced only when the override is
truthy (the source only puts truthy fields into to_replace). -/
def overrideArgsList (ov : JobRunOverrides) (cur : List Arg) : List Arg :=
  match ov.functionArgs with
  | some l => if l.isEmpty then cur else l
  | none => cur

/-- The function_kwargs replacement value: replaced only when the override
is truthy. -/
def overrideKwargsList (ov : JobRunOverrides) (cur : List (String × Arg)) :
    List (String × Arg) :=
  match ov.functionKwargs with
  | some l => if l.isEmpty then cur else l
  | none => cur

/-- First branch of _apply_job_run_overrides (meadowflow/jobs.py lines
215-239): function_args/function_kwargs apply to LocalFunction directly and
to MeadowRunDeployedFunction through its inner descriptor (both via
dataclasses.replace, which creates a new object); any other variant
raises. -/
def applyOverridesArgs (ov : JobRunOverrides) (f : JobRunnerFunction) :
    Except RunError JobRunnerFunction :=
  if optListTruthy ov.functionArgs || optListTruthy ov.functionKwargs then
    match f with
    | .localFunction lf =>
        .ok (.localFunction
          { lf with
            functionArgs := overrideArgsList ov lf.functionArgs
            functionKwargs := overrideKwargsList ov lf.functionKwargs })
    | .deployedFunction df =>
        .ok (.deployedFunction
          { df with
            meadowrunFunction :=
              { df.meadowrunFunction with
                functionArgs := overrideArgsList ov df.meadowrunFunction.functionArgs
                functionKwargs :=
                  overrideKwargsList ov df.meadowrunFunction.functionKwargs } })
    | .deployedCommand _ => .error .overrideArgsNotApplicable
  else .ok f

/-- Second branch of _apply_job_run_overrides (meadowflow/jobs.py lines
241-252): context_variables apply only to MeadowRunDeployedCommand (via
dataclasses.replace); any other variant raises. -/
def applyOverridesContext (ov : JobRunOverrides) (f : JobRunnerFunction) :
    Except RunError JobRunnerFunction :=
  if optListTruthy ov.contextVariables then
    match f with
    | .deployedCommand dc =>
        .ok (.deployedCommand
          { dc with contextVariables := ov.contextVariables.getD [] })
    | _ => .error .overrideContextNotApplicable
  else .ok f

/-- Third branch of _apply_job_run_overrides (meadowflow/jobs.py lines
254-276): the database-userspace name goes under the key
MEADOWDB_DEFAULT_USERSPACE into the environment-variable map of the two
remote variants (by in-place dict.update when the map is non-empty, by
dataclasses.replace with a fresh one-entry dict when it is empty or None);
any other variant raises. -/
def applyOverridesUserspace (ov : JobRunOverrides) (f : JobRunnerFunction) :
    Except RunError JobRunnerFunction :=
  if optStrTruthy ov.meadowdbUserspace then
    match f with
    | .deployedCommand dc =>
        .ok (.deployedCommand
          { dc with
            environmentVariables :=
              envUpdate dc.environmentVariables "MEADOWDB_DEFAULT_USERSPACE"
                (ov.meadowdbUserspace.getD "") })
    | .deployedFunction df =>
        .ok (.deployedFunction
          { df with
            environmentVariables :=
              envUpdate df.environmentVariables "MEADOWDB_DEFAULT_USERSPACE"
                (ov.meadowdbUserspace.getD "") })
    | .localFunction _ => .error .overrideUserspaceNotApplicable
  else .ok f

/-- True iff the userspace branch takes its in-place dict.update path on
this input: userspace truthy, remote variant, non-empty environment map.
The args/context branches never change the variant or the
environment-variable map value, so the test can be stated on the original
function. -/
def overridesMutateEnvInPlace (ov : JobRunOverrides) (f : JobRunnerFunction) : Bool :=
  optStrTruthy ov.meadowdbUserspace && isRemoteVariant f && !(envOf f).isEmpty

/-- _apply_job_run_overrides from meadowflow/jobs.py lines 210-278.  The
result pairs the returned runner function with the state of the CALLER'S
ORIGINAL object after the call.  dataclasses.replace copies field
references shallowly, so every object produced by the args/context branches
still shares the original environment-variable dict; when the userspace
branch runs dict.update on a non-empty map it therefore mutates the
original object's map as well.  On every raise path the original is
untouched (the update is the only in-place write and raising replaces
it). -/
def applyJobRunOverrides (runOverrides : Option JobRunOverrides)
    (f : JobRunnerFunction) : Except RunError (JobRunnerFunction × JobRunnerFunction) :=
  match runOverrides with
  | none => .ok (f, f)
  | some ov =>
    match applyOverridesArgs ov f with
    | .error e => .error e
    | .ok f1 =>
      match applyOverridesContext ov f1 with
      | .error e => .error e
      | .ok f2 =>
        match applyOverridesUserspace ov f2 with
        | .error e => .error e
        | .ok f3 =>
          .ok (f3,
            if overridesMutateEnvInPlace ov f then
              setEnvOf f
                (envUpdate (envOf f) "MEADOWDB_DEFAULT_USERSPACE"
                  (ov.meadowdbUserspace.getD ""))
            else f)

/-- Modelled from the spec: latest-event argument substitution
(meadowflow/events_arg.py replace_latest_events, not under src/): an
argument marker for the latest event on topic X is replaced by
last_event(X, at most t). -/
def replaceArg (log : EventLog) (t : Nat) : Arg → Arg
  | .latestEvent tn => .resolvedEvent (lastEvent log tn t)
  | .strVal s => .strVal s
  | .resolvedEvent e => .resolvedEvent e

/-- Modelled from the spec: replace_latest_events applied to a whole runner
function: substitutes every latest-event argument marker of the function's
argument lists. -/
def replaceLatestEvents (f : JobRunnerFunction) (log : EventLog) (t : Nat) :
    JobRunnerFunction :=
  match f with
  | .localFunction lf =>
      .localFunction
        { lf with
          functionArgs := lf.functionArgs.map (replaceArg log t)
          functionKwargs := lf.functionKwargs.map (fun p => (p.1, replaceArg log t p.2)) }
  | .deployedFunction df =>
      .deployedFunction
        { df with
          meadowrunFunction :=
            { df.meadowrunFunction with
              functionArgs := df.meadowrunFunction.functionArgs.map (replaceArg log t)
              functionKwargs :=
                df.meadowrunFunction.functionKwargs.map
                  (fun p => (p.1, replaceArg log t p.2)) } }
  | .deployedCommand dc => .deployedCommand dc

/-- A Trigger as consumed by the scheduler: it offers
topic_names_to_subscribe and is_active over the delivered window.  The one
concrete trigger in the sources is the AnyJobStateEventFilter. -/
inductive Trigger where
  | anyJobStateFilter (f : AnyJobStateEventFilter)

/-- Trigger.topic_names_to_subscribe: the trigger's wake set. -/
def Trigger.topicNamesToSubscribe : Trigger → List TopicName
  | .anyJobStateFilter f => f.jobNames

/-- Trigger.is_active over the delivered window. -/
def Trigger.isActive : Trigger → DeliveredEvents → Bool
  | .anyJobStateFilter f, d => f.isActiveWindow d

/-- The one concrete Action in the sources (Actions.run, a Run instance). -/
inductive ActionKind where
  | runAction
deriving DecidableEq, Repr

/-- A (trigger, action) binding of a job. -/
structure TriggerAction where
  trigger : Trigger
  action : ActionKind

/-- JobFunction from meadowflow/jobs.py: either a VersionedJobRunnerFunction
(an abstract resolver; embedded as carrying the runner function its
get_job_runner_function call resolves to) or directly a runner-function
variant. -/
inductive JobFunction where
  | versioned (resolved : JobRunnerFunction)
  | runnerFn (f : JobRunnerFunction)
deriving DecidableEq, Repr

/-- JobRunner (meadowflow/jobs.py, abstract): a job runner client.  run is
embedded by the list of events the runner appends to the log for a given
(job name, request id, runner function); can_run_function is its
compatibility check. -/
structure JobRunner where
  canRunFunction : JobRunnerFunction → Bool
  runAppends : TopicName → String → JobRunnerFunction → List (TopicName × JobPayload)

/-- Job from meadowflow/jobs.py.  The abstract JobRunnerPredicate is
embedded as its apply method. -/
structure Job where
  name : TopicName
  jobFunction : JobFunction
  triggerActions : List TriggerAction
  jobRunnerPredicate : Option (JobRunner → Bool)
  scope : ScopeValues
  allSubscribedTopics : Option (List TopicName)

/-- The two filter steps of choose_job_runner (meadowflow/jobs.py lines
344-352): runners passing the job's predicate (all of them when the
predicate is absent) whose can_run_function accepts the runner function. -/
def compatibleJobRunners (job : Job) (jobRunnerFunction : JobRunnerFunction)
    (jobRunners : List JobRunner) : List JobRunner :=
  (match job.jobRunnerPredicate with
   | none => jobRunners
   | some p => jobRunners.filter p).filter
    (fun jr : JobRunner => jr.canRunFunction jobRunnerFunction)

/-- choose_job_runner from meadowflow/jobs.py lines 336-363: filter the
runners by the job's predicate (all runners when absent), then by
can_run_function; raise when no runner survives, otherwise pick one at
random.  The random.choice draw is embedded by the choice index (reduced
modulo the number of survivors), making the uniform selection a function of
the seed. -/
def chooseJobRunner (job : Job) (jobRunnerFunction : JobRunnerFunction)
    (jobRunners : List JobRunner) (choice : Nat) : Except RunError JobRunner :=
  if h : (compatibleJobRunners job jobRunnerFunction jobRunners).length = 0 then
    .error .noCompatibleRunner
  else
    .ok ((compatibleJobRunners job jobRunnerFunction jobRunners).get
      ⟨choice % (compatibleJobRunners job jobRunnerFunction jobRunners).length,
        Nat.mod_lt choice (Nat.pos_of_ne_zero h)⟩)

/-- The job-function-to-runner-function conversion at the start of the
dispatch path (meadowflow/jobs.py lines 307-316): a versioned descriptor
resolves via get_job_runner_function, a runner-function variant passes
through unchanged. -/
def resolveJobFunction : JobFunction → JobRunnerFunction
  | .versioned r => r
  | .runnerFn f => f

/-- The job object as the caller sees it after the overrides step: when the
job function was passed through (not versioned), it is the same object the
override pipeline worked on, so it reflects any in-place mutation of its
environment-variable map; a versioned job function resolved to a fresh
object, leaving the job itself untouched. -/
def jobAfterOverrides (job : Job) (resolvedAfter : JobRunnerFunction) : Job :=
  match job.jobFunction with
  | .runnerFn _ => { job with jobFunction := .runnerFn resolvedAfter }
  | .versioned r => { job with jobFunction := .versioned r }

/-- The dispatch path of Run.execute (the else branch of meadowflow/jobs.py
lines 304-333): resolve the job function, apply overrides, substitute
latest-event arguments, choose a runner, run it, return the fresh request
id.  uuid.uuid4 is embedded by the freshRequestId parameter and the random
runner draw by runnerChoice.  The result carries the run outcome, the log
after the call (the chosen runner's run appends its events through the
append function it was built with) and the caller's job object after the
call. -/
def executeRunDispatch (job : Job) (runOverrides : Option JobRunOverrides)
    (availableJobRunners : List JobRunner) (eventLog : EventLog) (timestamp : Nat)
    (freshRequestId : String) (runnerChoice : Nat) :
    Except RunError (Option String) × EventLog × Job :=
  match applyJobRunOverrides runOverrides (resolveJobFunction job.jobFunction) with
  | .error e => (.error e, eventLog, job)
  | .ok (f1, resolvedAfter) =>
    match chooseJobRunner job (replaceLatestEvents f1 eventLog timestamp)
        availableJobRunners runnerChoice with
    | .error e => (.error e, eventLog, jobAfterOverrides job resolvedAfter)
    | .ok runner =>
      (.ok (some freshRequestId),
        (runner.runAppends job.name freshRequestId
            (replaceLatestEvents f1 eventLog timestamp)).foldl
          (fun l p => appendEvent l p.1 p.2) eventLog,
        jobAfterOverrides job resolvedAfter)

/-- Run.execute from meadowflow/jobs.py lines 285-333.  If the job's latest
event at the timestamp exists and is RUN_REQUESTED or RUNNING, the previous
request id is returned and nothing else happens; otherwise the dispatch
path runs. -/
def executeRun (job : Job) (runOverrides : Option JobRunOverrides)
    (availableJobRunners : List JobRunner) (eventLog : EventLog) (timestamp : Nat)
    (freshRequestId : String) (runnerChoice : Nat) :
    Except RunError (Option String) × EventLog × Job :=
  match lastEvent eventLog job.name timestamp with
  | some ev =>
    if ev.payload.state = JobState.runRequested ∨ ev.payload.state = JobState.running then
      (.ok ev.payload.requestId, eventLog, job)
    else
      executeRunDispatch job runOverrides availableJobRunners eventLog timestamp
        freshRequestId runnerChoice
  | none =>
    executeRunDispatch job runOverrides availableJobRunners eventLog timestamp
      freshRequestId runnerChoice

/-- The effect of one subscriber invocation, as observed through the log
and the jobs: which action was executed against which job, if any.  This is
the body of the subscriber coroutine in
nextbeat/scheduler.py lines 68-80: gather the per-topic event tuples for
the trigger's wake set via events_and_state, and if the trigger is active
execute the action against the job. -/
def subscriberRun (job : Job) (trigger : Trigger) (action : ActionKind)
    (log : EventLog) (low high : Nat) : Option (TopicName × ActionKind) :=
  let events : DeliveredEvents :=
    trigger.topicNamesToSubscribe.map (fun n => (n, eventsAndState log n low high))
  if trigger.isActive events then some (job.name, action) else none

/-- A subscriber registered with EventLog.subscribe: the topic set it was
registered under, and the handler invoked with a window (the handler's
observable effect is which action it executes on which job). -/
structure RegisteredSubscriber where
  topics : List TopicName
  handler : EventLog → Nat → Nat → Option (TopicName × ActionKind)

/-- The (job, trigger-action) bindings of the pending queue, in the order
the two nested loops of create_job_subscriptions visit them. -/
def jobBindings (queue : List Job) : List (Job × TriggerAction) :=
  queue.flatMap (fun job => job.triggerActions.map (fun ta => (job, ta)))

/-- Scheduler.create_job_subscriptions from nextbeat/scheduler.py lines
66-85, with Python's closure semantics embedded faithfully: the subscriber
coroutine defined inside the loop body closes over the LOOP VARIABLES job,
trigger and action by reference, not by value.  The subscribe call's first
argument (the trigger's wake set) is evaluated eagerly during the loop, so
each registration carries its own binding's topics; but the handlers all
read the shared loop-variable cells when they are later woken, by which
time the loop has finished and the cells hold the values of the FINAL
iteration. -/
def createJobSubscriptionsPython (queue : List Job) : List RegisteredSubscriber :=
  let bindings := jobBindings queue
  bindings.map (fun b =>
    { topics := b.2.trigger.topicNamesToSubscribe
      handler := fun log low high =>
        match bindings.getLast? with
        | some lb => subscriberRun lb.1 lb.2.trigger lb.2.action log low high
        | none => none })

/-- Modelled from the spec: the registration create_job_subscriptions is
specified to perform, with each binding captured by value, so that every
registered subscriber evaluates its own binding's trigger and executes its
own binding's action against its own job.  This is the comparison point for
the closure-capture claim. -/
def createJobSubscriptionsSpec (queue : List Job) : List RegisteredSubscriber :=
  (jobBindings queue).map (fun b =>
    { topics := b.2.trigger.topicNamesToSubscribe
      handler := fun log low high =>
        subscriberRun b.1 b.2.trigger b.2.action log low high })

/-- The error raised by Scheduler.add_job on a duplicate name. -/
inductive SchedulerError where
  | duplicateJobName
deriving DecidableEq, Repr

/-- The scheduler state touched by add_job: the job registry, the
pending-bind queue and the event log. -/
structure SchedulerState where
  jobs : List (TopicName × Job)
  queue : List Job
  log : EventLog

/-- Python dict membership on the job registry. -/
def schedHasJob (s : SchedulerState) (n : TopicName) : Bool :=
  s.jobs.any (fun p => tnEq p.1 n)

/-- Scheduler.add_job from nextbeat/scheduler.py lines 41-50: raise on a
duplicate name (before any mutation), otherwise store the job, enqueue it
for subscription binding and append the initial WAITING event.  The pair
returned is (raised error if any, state of the scheduler after the
call). -/
def addJob (s : SchedulerState) (job : Job) : Option SchedulerError × SchedulerState :=
  if schedHasJob s job.name then (some .duplicateJobName, s)
  else
    (none,
      { jobs := s.jobs ++ [(job.name, job)]
        queue := s.queue ++ [job]
        log := appendEvent s.log job.name (mkJobPayload none JobState.waiting) })

/-- A payload as delivered to the scope wrapper: either a job payload or a
ScopeValues (other payload kinds the engine does not inspect are treated
identically to job payloads by the wrapper's isinstance check). -/
inductive GenPayload where
  | jobPayload (p : JobPayload)
  | scopeValues (s : ScopeValues)
deriving DecidableEq, Repr

/-- An event as delivered to the scope wrapper through a LatestEventsArg
mapping. -/
structure GenEvent where
  topic : TopicName
  timestamp : Nat
  payload : GenPayload
deriving DecidableEq, Repr

/-- The list comprehension at the start of the wrapper
(meadowflow/jobs.py lines 468-470): the payloads of the delivered events
that are ScopeValues instances, in delivery order. -/
def scopePayloads (events : List (TopicName × GenEvent)) : List ScopeValues :=
  events.filterMap (fun p =>
    match p.2.payload with
    | .scopeValues s => some s
    | .jobPayload _ => none)

/-- The inner loop of the wrapper (meadowflow/jobs.py lines 484-491) on one
job name: fold the scope's key/value pairs into the mutable name, raising
the colliding key if the name already contains it. -/
def extendJobNameGo (name : TopicName) : ScopeValues → Except String TopicName
  | [] => .ok name
  | kv :: rest =>
    if tnHasKey name kv.1 then .error kv.1
    else extendJobNameGo (name ++ [kv]) rest

/-- The per-job body of the wrapper's loop (meadowflow/jobs.py lines
483-493): extend the job's name with the scope entries, set the job's
scope, write the new name back.  The job object is mutated in place in the
source; the embedding returns the updated object. -/
def applyScopeToJob (scope : ScopeValues) (job : Job) : Except String Job :=
  match extendJobNameGo job.name scope with
  | .error k => .error k
  | .ok n => .ok { job with name := n, scope := scope }

/-- The job object the wrapper produces from a job when no key collides:
name extended with the scope entries in scope order, scope field set. -/
def jobInScope (scope : ScopeValues) (job : Job) : Job :=
  { job with name := job.name ++ scope, scope := scope }

/-- The outcome of the scope wrapper.  Because the source mutates the
returned Job objects in place, the collision error carries the state of the
user function's job list as the caller sees it at raise time: the jobs
already processed are updated, the colliding job and everything after it
are untouched. -/
inductive ScopeWrapperResult where
  | ok (jobs : List Job)
  | arityError (numScopes : Nat)
  | collisionError (key : String) (jobsAfter : List Job)

/-- The wrapper's loop over the returned jobs (meadowflow/jobs.py lines
483-493), carrying the already-mutated jobs. -/
def processScopeJobs (scope : ScopeValues) (done : List Job) :
    List Job → ScopeWrapperResult
  | [] => .ok done
  | j :: rest =>
    match applyScopeToJob scope j with
    | .error k => .collisionError k (done ++ j :: rest)
    | .ok j2 => processScopeJobs scope (done ++ [j2]) rest

/-- The wrapper produced by add_scope_jobs_decorator
(meadowflow/jobs.py lines 464-495): collect the ScopeValues payloads among
the delivered events, require exactly one, call the user function with that
scope, then push the scope into every returned job's name and scope
field. -/
def addScopeJobsWrapper (f : ScopeValues → List Job)
    (events : List (TopicName × GenEvent)) : ScopeWrapperResult :=
  match scopePayloads events with
  | [s] => processScopeJobs s [] (f s)
  | l => .arityError l.length

/-- Claim C8: AllJobStatePredicate(job_names, on_states).apply is true iff
for every job_name in job_names (with the CURRENT_JOB sentinel replaced by
the current job's name), the latest event at the high timestamp exists and
its payload state is in on_states. -/
theorem all_job_state_predicate_apply_iff (p : AllJobStatePredicate)
    (log : EventLog) (low high : Nat) (cur : TopicName) :
    p.apply log low high cur = true ↔
      ∀ n ∈ p.jobNames, ∃ e, lastEvent log (substCurrentJob n cur) high = some e ∧
        e.payload.state ∈ p.onStates := by
  unfold AllJobStatePredicate.apply
  rw [List.all_eq_true]
  constructor
  · intro h n hn
    have h2 := h n hn
    cases hm : lastEvent log (substCurrentJob n cur) high with
    | none => rw [hm] at h2; simp at h2
    | some e =>
      rw [hm] at h2
      simp only [decide_eq_true_eq] at h2
      exact ⟨e, rfl, h2⟩
  · intro h n hn
    obtain ⟨e, he, hs⟩ := h n hn
    rw [he]
    simpa using hs

/-- Concrete topic used by witnesses. -/
def cTopicX : TopicName := [("base", "x")]

/-- Concrete job event on cTopicX in the SUCCEEDED state. -/
def cEventX : JobEvent := ⟨cTopicX, 1, mkJobPayload (some "r") JobState.succeeded⟩

/-- Concrete one-event log used by witnesses. -/
def cLogX : EventLog := [cEventX]

/-- Witness for C8: the predicate over the CURRENT_JOB sentinel holds on a
log whose current job has a SUCCEEDED latest event. -/
theorem all_job_state_predicate_apply_iff_witness :
    AllJobStatePredicate.apply ⟨[CURRENT_JOB], [JobState.succeeded]⟩ cLogX 0 5 cTopicX = true := by
  apply (all_job_state_predicate_apply_iff ⟨[CURRENT_JOB], [JobState.succeeded]⟩ cLogX 0 5 cTopicX).mpr
  intro n hn
  simp only [List.mem_singleton] at hn
  subst hn
  exact ⟨cEventX, rfl, by decide⟩

/-- Claim C3: AnyJobStateEventFilter(job_names, on_states) is active over a
delivered window iff for some job_name in job_names the latest event
observed for that job_name in the window has a payload state in on_states
(an older matching event in the window does not by itself activate the
filter, since only the latest observed event is consulted). -/
theorem any_job_state_event_filter_active_iff (f : AnyJobStateEventFilter)
    (d : DeliveredEvents) :
    f.isActiveWindow d = true ↔
      ∃ n ∈ f.jobNames, ∃ e, latestDelivered d n = some e ∧
        e.payload.state ∈ f.onStates := by
  unfold AnyJobStateEventFilter.isActiveWindow
  rw [List.any_eq_true]
  constructor
  · rintro ⟨n, hn, h⟩
    cases hm : latestDelivered d n with
    | none => rw [hm] at h; simp at h
    | some e =>
      rw [hm] at h
      unfold AnyJobStateEventFilter.apply at h
      simp only [decide_eq_true_eq] at h
      exact ⟨n, hn, e, hm, h⟩
  · rintro ⟨n, hn, e, he, hs⟩
    refine ⟨n, hn, ?_⟩
    rw [he]
    unfold AnyJobStateEventFilter.apply
    simpa using hs

/-- Witness for C3: a window whose latest observed event for cTopicX is
SUCCEEDED activates the filter watching cTopicX for SUCCEEDED. -/
theorem any_job_state_event_filter_active_iff_witness :
    AnyJobStateEventFilter.isActiveWindow ⟨[cTopicX], [JobState.succeeded]⟩
      [(cTopicX, [cEventX])] = true := by
  apply (any_job_state_event_filter_active_iff ⟨[cTopicX], [JobState.succeeded]⟩
    [(cTopicX, [cEventX])]).mpr
  exact ⟨cTopicX, by simp, cEventX, rfl, by decide⟩

lemma executeRunDispatch_fst_error_log (job : Job) (o : Option JobRunOverrides)
    (runners : List JobRunner) (log : EventLog) (t : Nat) (fid : String) (c : Nat)
    (e : RunError) (h : (executeRunDispatch job o runners log t fid c).1 = .error e) :
    (executeRunDispatch job o runners log t fid c).2.1 = log := by
  rcases happ : applyJobRunOverrides o (resolveJobFunction job.jobFunction) with e1 | ⟨f1, fa⟩
  · unfold executeRunDispatch
    rw [happ]
  · unfold executeRunDispatch at h ⊢
    rw [happ] at h ⊢
    dsimp only at h ⊢
    rcases hch : chooseJobRunner job (replaceLatestEvents f1 log t) runners c with e2 | r
    · rfl
    · rw [hch] at h
      simp at h

lemma executeRun_fst_error_log (job : Job) (o : Option JobRunOverrides)
    (runners : List JobRunner) (log : EventLog) (t : Nat) (fid : String) (c : Nat)
    (e : RunError) (h : (executeRun job o runners log t fid c).1 = .error e) :
    (executeRun job o runners log t fid c).2.1 = log := by
  unfold executeRun at h ⊢
  rcases hl : lastEvent log job.name t with _ | ev
  · rw [hl] at h
    exact executeRunDispatch_fst_error_log job o runners log t fid c e h
  · rw [hl] at h
    dsimp only at h ⊢
    by_cases hs : ev.payload.state = JobState.runRequested ∨ ev.payload.state = JobState.running
    · rw [if_pos hs] at h
      simp at h
    · rw [if_neg hs] at h ⊢
      exact executeRunDispatch_fst_error_log job o runners log t fid c e h

/-- Claim C4: choose_job_runner returns a runner from the candidate set (the
runners passing the job's predicate, all of them when the predicate is
absent, whose can_run_function accepts the resolved function); each
candidate is the value picked for some draw of the random choice; it raises
NoCompatibleRunner exactly when the candidate set is empty; and whenever
Run.execute fails no event is appended to the log. -/
theorem choose_job_runner_spec (job : Job) (f : JobRunnerFunction)
    (runners : List JobRunner) (choice : Nat) :
    (chooseJobRunner job f runners choice = .error .noCompatibleRunner ↔
      compatibleJobRunners job f runners = []) ∧
    (∀ r, chooseJobRunner job f runners choice = .ok r →
      r ∈ compatibleJobRunners job f runners) ∧
    (∀ i, ∀ hi : i < (compatibleJobRunners job f runners).length,
      chooseJobRunner job f runners i =
        .ok ((compatibleJobRunners job f runners).get ⟨i, hi⟩)) ∧
    (∀ o log t fid e, (executeRun job o runners log t fid choice).1 = .error e →
      (executeRun job o runners log t fid choice).2.1 = log) := by
  refine ⟨?_, ?_, ?_, ?_⟩
  · constructor
    · intro h
      by_cases hl : (compatibleJobRunners job f runners).length = 0
      · exact List.length_eq_zero.mp hl
      · unfold chooseJobRunner at h
        rw [dif_neg hl] at h
        simp at h
    · intro h
      unfold chooseJobRunner
      rw [dif_pos (by simp [h])]
  · intro r h
    unfold chooseJobRunner at h
    by_cases hl : (compatibleJobRunners job f runners).length = 0
    · rw [dif_pos hl] at h
      simp at h
    · rw [dif_neg hl] at h
      simp only [Except.ok.injEq] at h
      exact h ▸ (compatibleJobRunners job f runners).get_mem _ _
  · intro i hi
    unfold chooseJobRunner
    rw [dif_neg (by omega)]
    have hmod : i % (compatibleJobRunners job f runners).length = i := Nat.mod_eq_of_lt hi
    simp [hmod]
  · intro o log t fid e h
    exact executeRun_fst_error_log job o runners log t fid choice e h

/-- A concrete runner accepting every function and appending nothing. -/
def cRunnerT : JobRunner := ⟨fun _ => true, fun _ _ _ => []⟩

/-- A concrete local runner function. -/
def cJobFnA : JobRunnerFunction := .localFunction ⟨"f", [], []⟩

/-- A concrete job with no predicate and no trigger actions. -/
def cJobA : Job := ⟨[("base", "a")], .runnerFn cJobFnA, [], none, [], none⟩

/-- Witness for C4: with one accepting runner and no predicate, the runner
is chosen. -/
theorem choose_job_runner_spec_witness :
    chooseJobRunner cJobA cJobFnA [cRunnerT] 0 = .ok cRunnerT := by
  exact (choose_job_runner_spec cJobA cJobFnA [cRunnerT] 0).2.2.1 0
    (show 0 < (compatibleJobRunners cJobA cJobFnA [cRunnerT]).length from Nat.zero_lt_one)

/-- Claim C1: when the job's latest event at the timestamp exists and is
RUN_REQUESTED or RUNNING, Run.execute returns that event's request id and
appends no event and does not touch the job; a second consecutive call in
the same situation returns the same request id again. -/
theorem run_execute_single_flight (job : Job) (o : Option JobRunOverrides)
    (runners : List JobRunner) (log : EventLog) (t : Nat)
    (fid1 fid2 : String) (c1 c2 : Nat) (ev : JobEvent)
    (hlast : lastEvent log job.name t = some ev)
    (hstate : ev.payload.state = JobState.runRequested ∨
      ev.payload.state = JobState.running) :
    executeRun job o runners log t fid1 c1 = (.ok ev.payload.requestId, log, job) ∧
    executeRun job o runners (executeRun job o runners log t fid1 c1).2.1 t fid2 c2 =
      (.ok ev.payload.requestId, log, job) := by
  have h1 : executeRun job o runners log t fid1 c1 = (.ok ev.payload.requestId, log, job) := by
    unfold executeRun
    rw [hlast]
    dsimp only
    rw [if_pos hstate]
  refine ⟨h1, ?_⟩
  rw [h1]
  show executeRun job o runners log t fid2 c2 = _
  unfold executeRun
  rw [hlast]
  dsimp only
  rw [if_pos hstate]

/-- A concrete log whose only event leaves job a in RUN_REQUESTED. -/
def cLogInflight : EventLog :=
  [⟨[("base", "a")], 1, mkJobPayload (some "req-1") JobState.runRequested⟩]

/-- Witness for C1: with job a in-flight, execute returns the previous
request id and leaves the log and the job alone. -/
theorem run_execute_single_flight_witness :
    lastEvent cLogInflight cJobA.name 5 =
      some ⟨[("base", "a")], 1, mkJobPayload (some "req-1") JobState.runRequested⟩ ∧
    executeRun cJobA none [] cLogInflight 5 "fresh" 0 =
      (.ok (some "req-1"), cLogInflight, cJobA) := by
  refine ⟨rfl, ?_⟩
  exact (run_execute_single_flight cJobA none [] cLogInflight 5 "fresh" "g" 0 0
    ⟨[("base", "a")], 1, mkJobPayload (some "req-1") JobState.runRequested⟩
    rfl (Or.inl rfl)).1

lemma tnLookup_append (a b : List (String × String)) (k : String) :
    tnLookup (a ++ b) k =
      match tnLookup a k with
      | some v => some v
      | none => tnLookup b k := by
  induction a with
  | nil => rfl
  | cons hd tl ih =>
    by_cases h : hd.1 = k
    · simp [tnLookup, h]
    · simp [tnLookup, h, ih]

lemma tnLookup_not_any (env : List (String × String)) (k : String)
    (h : env.any (fun kv => kv.1 = k) = false) : tnLookup env k = none := by
  induction env with
  | nil => rfl
  | cons hd tl ih =>
    simp only [List.any_cons, Bool.or_eq_false_iff, decide_eq_false_iff_not] at h
    simp [tnLookup, h.1, ih h.2]

lemma tnLookup_map_overwrite (env : List (String × String)) (k v : String)
    (h : env.any (fun kv => kv.1 = k) = true) :
    tnLookup (env.map fun kv => if kv.1 = k then (k, v) else kv) k = some v := by
  induction env with
  | nil => simp at h
  | cons hd tl ih =>
    by_cases hx : hd.1 = k
    · simp [tnLookup, hx]
    · have htl : tl.any (fun kv => kv.1 = k) = true := by
        simp only [List.any_cons, decide_eq_true_eq] at h
        rcases Bool.or_eq_true_iff.mp h with h1 | h2
        · exact absurd (of_decide_eq_true h1) hx
        · exact h2
      simp [tnLookup, hx, ih htl]

lemma tnLookup_envUpdate_self (env : List (String × String)) (k v : String) :
    tnLookup (envUpdate env k v) k = some v := by
  unfold envUpdate
  split
  · rename_i h
    exact tnLookup_map_overwrite env k v h
  · rename_i h
    have hfalse : env.any (fun kv => kv.1 = k) = false := by
      exact Bool.eq_false_iff.mpr h
    rw [tnLookup_append, tnLookup_not_any env k hfalse]
    simp [tnLookup]

lemma mem_envUpdate_of_ne (env : List (String × String)) (k v q w : String)
    (hq : q ≠ k) : ((q, w) ∈ envUpdate env k v) ↔ (q, w) ∈ env := by
  unfold envUpdate
  split
  · constructor
    · intro hm
      rcases List.mem_map.mp hm with ⟨kv, hkv, heq⟩
      by_cases hk : kv.1 = k
      · rw [if_pos hk] at heq
        injection heq with h1 h2
        exact absurd h1.symm hq
      · rw [if_neg hk] at heq
        exact heq ▸ hkv
    · intro hm
      apply List.mem_map.mpr
      refine ⟨(q, w), hm, ?_⟩
      simp [hq]
  · simp [List.mem_append, hq]

/-- A deployed command whose environment map already binds the userspace
key. -/
def cDeployedCmdOld : MeadowRunDeployedCommand :=
  ⟨"dep", ["cmd"], [], [("MEADOWDB_DEFAULT_USERSPACE", "old")]⟩

/-- Overrides carrying only a database-userspace name. -/
def cOvUserspace : JobRunOverrides := ⟨none, none, none, some "new"⟩

/-- Counterexample to C5 as stated: when the environment map already binds
MEADOWDB_DEFAULT_USERSPACE, override application overwrites that entry in
place, so the existing entry is not preserved. -/
theorem apply_overrides_userspace_overwrites :
    applyJobRunOverrides (some cOvUserspace) (.deployedCommand cDeployedCmdOld) =
      .ok (.deployedCommand ⟨"dep", ["cmd"], [], [("MEADOWDB_DEFAULT_USERSPACE", "new")]⟩,
        .deployedCommand ⟨"dep", ["cmd"], [], [("MEADOWDB_DEFAULT_USERSPACE", "new")]⟩) ∧
    ("MEADOWDB_DEFAULT_USERSPACE", "old") ∈ cDeployedCmdOld.environmentVariables ∧
    ("MEADOWDB_DEFAULT_USERSPACE", "old") ∉
      ([("MEADOWDB_DEFAULT_USERSPACE", "new")] : List (String × String)) := by
  refine ⟨rfl, by decide, by decide⟩

/-- Claim C5 (amended): for overrides carrying only a database-userspace
name, override application binds the name under MEADOWDB_DEFAULT_USERSPACE
in the environment-variable map of the two remote variants (overwriting any
existing entry under that key, in place when the map was non-empty) while
preserving every entry under a different key; for the local variant it
fails with the userspace ValueError. -/
theorem apply_overrides_userspace_spec (s : String) (hs : s ≠ "") :
    (∀ f : JobRunnerFunction, isRemoteVariant f = true →
      applyJobRunOverrides (some ⟨none, none, none, some s⟩) f =
        .ok (setEnvOf f (envUpdate (envOf f) "MEADOWDB_DEFAULT_USERSPACE" s),
          if (envOf f).isEmpty then f
          else setEnvOf f (envUpdate (envOf f) "MEADOWDB_DEFAULT_USERSPACE" s))) ∧
    (∀ f : JobRunnerFunction, isRemoteVariant f = false →
      applyJobRunOverrides (some ⟨none, none, none, some s⟩) f =
        .error .overrideUserspaceNotApplicable) ∧
    (∀ env : List (String × String),
      tnLookup (envUpdate env "MEADOWDB_DEFAULT_USERSPACE" s)
        "MEADOWDB_DEFAULT_USERSPACE" = some s) ∧
    (∀ env : List (String × String), ∀ q w : String,
      q ≠ "MEADOWDB_DEFAULT_USERSPACE" →
      (((q, w) ∈ envUpdate env "MEADOWDB_DEFAULT_USERSPACE" s) ↔ (q, w) ∈ env)) := by
  refine ⟨?_, ?_, ?_, ?_⟩
  · intro f hf
    cases f with
    | localFunction lf => simp [isRemoteVariant] at hf
    | deployedCommand dc =>
      by_cases he : dc.environmentVariables.isEmpty
      · simp [applyJobRunOverrides, applyOverridesArgs, applyOverridesContext,
          applyOverridesUserspace, optListTruthy, optStrTruthy,
          overridesMutateEnvInPlace, isRemoteVariant, envOf, setEnvOf, hs, he]
      · simp [applyJobRunOverrides, applyOverridesArgs, applyOverridesContext,
          applyOverridesUserspace, optListTruthy, optStrTruthy,
          overridesMutateEnvInPlace, isRemoteVariant, envOf, setEnvOf, hs, he]
    | deployedFunction df =>
      by_cases he : df.environmentVariables.isEmpty
      · simp [applyJobRunOverrides, applyOverridesArgs, applyOverridesContext,
          applyOverridesUserspace, optListTruthy, optStrTruthy,
          overridesMutateEnvInPlace, isRemoteVariant, envOf, setEnvOf, hs, he]
      · simp [applyJobRunOverrides, applyOverridesArgs, applyOverridesContext,
          applyOverridesUserspace, optListTruthy, optStrTruthy,
          overridesMutateEnvInPlace, isRemoteVariant, envOf, setEnvOf, hs, he]
  · intro f hf
    cases f with
    | localFunction lf =>
      simp [applyJobRunOverrides, applyOverridesArgs, applyOverridesContext,
        applyOverridesUserspace, optListTruthy, optStrTruthy, hs]
    | deployedCommand dc => simp [isRemoteVariant] at hf
    | deployedFunction df => simp [isRemoteVariant] at hf
  · intro env
    exact tnLookup_envUpdate_self env "MEADOWDB_DEFAULT_USERSPACE" s
  · intro env q w hq
    exact mem_envUpdate_of_ne env "MEADOWDB_DEFAULT_USERSPACE" s q w hq

/-- Witness for C5 (amended): a deployed function with one unrelated env
entry gains the userspace binding, keeping the entry, and the caller's
object is mutated the same way. -/
theorem apply_overrides_userspace_spec_witness :
    applyJobRunOverrides (some ⟨none, none, none, some "new"⟩)
      (.deployedFunction ⟨"dep", ⟨"g", [], []⟩, [("A", "1")]⟩) =
      .ok (.deployedFunction
            ⟨"dep", ⟨"g", [], []⟩, [("A", "1"), ("MEADOWDB_DEFAULT_USERSPACE", "new")]⟩,
        .deployedFunction
            ⟨"dep", ⟨"g", [], []⟩, [("A", "1"), ("MEADOWDB_DEFAULT_USERSPACE", "new")]⟩) := by
  exact (apply_overrides_userspace_spec "new" (by decide)).1
    (.deployedFunction ⟨"dep", ⟨"g", [], []⟩, [("A", "1")]⟩) rfl

/-- A deployed command with one pre-existing environment entry. -/
def cCmdEnvA : MeadowRunDeployedCommand := ⟨"dep", ["c"], [], [("A", "1")]⟩

/-- A job whose job function is that command, passed through (not
versioned). -/
def cJobM : Job := ⟨[("base", "m")], .runnerFn (.deployedCommand cCmdEnvA), [], none, [], none⟩

/-- Claim C7 evaluated at the failing input: a dispatching Run.execute with
a userspace override mutates the environment-variable map shared with the
job's own function, so the job is not left unchanged. -/
theorem run_execute_mutates_shared_env :
    (executeRun cJobM (some cOvUserspace) [cRunnerT] [] 0 "fresh-id" 0).2.2.jobFunction =
      .runnerFn (.deployedCommand
        ⟨"dep", ["c"], [], [("A", "1"), ("MEADOWDB_DEFAULT_USERSPACE", "new")]⟩) ∧
    cJobM.jobFunction = .runnerFn (.deployedCommand ⟨"dep", ["c"], [], [("A", "1")]⟩) ∧
    (executeRun cJobM (some cOvUserspace) [cRunnerT] [] 0 "fresh-id" 0).2.2.jobFunction ≠
      cJobM.jobFunction := by
  refine ⟨rfl, rfl, by decide⟩

/-- Second concrete topic used by the closure-capture claim. -/
def cTopicY : TopicName := [("base", "y")]

/-- Trigger watching topic x for SUCCEEDED. -/
def cTrigOnX : Trigger := .anyJobStateFilter ⟨[cTopicX], [JobState.succeeded]⟩

/-- Trigger watching topic y for SUCCEEDED. -/
def cTrigOnY : Trigger := .anyJobStateFilter ⟨[cTopicY], [JobState.succeeded]⟩

/-- Job A, bound to the trigger on topic x. -/
def cJobTA : Job := ⟨[("base", "jobA")], .runnerFn cJobFnA, [⟨cTrigOnX, .runAction⟩], none, [], none⟩

/-- Job B, bound to the trigger on topic y. -/
def cJobTB : Job := ⟨[("base", "jobB")], .runnerFn cJobFnA, [⟨cTrigOnY, .runAction⟩], none, [], none⟩

/-- A log whose only event is SUCCEEDED on topic y. -/
def cLogY : EventLog := [⟨cTopicY, 1, mkJobPayload (some "r") JobState.succeeded⟩]

/-- Claim C2 evaluated at the failing input: after loading jobs A and B,
the subscribers are registered under their own bindings' topic sets, but
every handler evaluates the FINAL binding (job B's trigger and action).  On
a window where A's trigger fired, the subscriber registered for A's binding
does nothing (and the per-binding registration the spec demands would have
run A); on a window where B's trigger fired, both handlers execute the Run
action against job B. -/
theorem create_job_subscriptions_closure_capture :
    ((createJobSubscriptionsPython [cJobTA, cJobTB]).map
      (fun r => r.topics) = [[cTopicX], [cTopicY]]) ∧
    ((createJobSubscriptionsPython [cJobTA, cJobTB]).map
      (fun r => r.handler cLogX 0 5) = [none, none]) ∧
    ((createJobSubscriptionsSpec [cJobTA, cJobTB]).map
      (fun r => r.handler cLogX 0 5) =
      [some (cJobTA.name, ActionKind.runAction), none]) ∧
    ((createJobSubscriptionsPython [cJobTA, cJobTB]).map
      (fun r => r.handler cLogY 0 5) =
      [some (cJobTB.name, ActionKind.runAction), some (cJobTB.name, ActionKind.runAction)]) ∧
    ((createJobSubscriptionsSpec [cJobTA, cJobTB]).map
      (fun r => r.handler cLogY 0 5) =
      [none, some (cJobTB.name, ActionKind.runAction)]) := by
  exact ⟨rfl, rfl, rfl, rfl, rfl⟩

/-- Claim C9: add_job rejects a duplicate name before mutating anything,
and for a fresh name stores the job, enqueues it for binding and appends
exactly the initial WAITING event. -/
theorem scheduler_add_job_spec (s : SchedulerState) (job : Job) :
    (schedHasJob s job.name = true →
      addJob s job = (some SchedulerError.duplicateJobName, s)) ∧
    (schedHasJob s job.name = false →
      addJob s job =
        (none,
          ⟨s.jobs ++ [(job.name, job)], s.queue ++ [job],
            s.log ++
              [⟨job.name, currTimestamp s.log + 1, mkJobPayload none JobState.waiting⟩]⟩)) := by
  constructor
  · intro h
    simp [addJob, h]
  · intro h
    simp [addJob, h, appendEvent]

/-- The empty scheduler state. -/
def cSched0 : SchedulerState := ⟨[], [], []⟩

/-- Witness for C9: a fresh add stores, enqueues and appends the WAITING
event; an immediate second add of the same name is rejected with the state
unchanged. -/
theorem scheduler_add_job_spec_witness :
    addJob cSched0 cJobA =
      (none, ⟨[(cJobA.name, cJobA)], [cJobA],
        [⟨cJobA.name, 1, mkJobPayload none JobState.waiting⟩]⟩) ∧
    addJob (addJob cSched0 cJobA).2 cJobA =
      (some SchedulerError.duplicateJobName, (addJob cSched0 cJobA).2) := by
  constructor
  · exact (scheduler_add_job_spec cSched0 cJobA).2 rfl
  · exact (scheduler_add_job_spec (addJob cSched0 cJobA).2 cJobA).1 rfl

lemma tnHasKey_listAppend (a b : List (String × String)) (k : String) :
    tnHasKey (a ++ b) k = (tnHasKey a k || tnHasKey b k) := by
  unfold tnHasKey
  rw [tnLookup_append]
  cases tnLookup a k <;> simp

lemma extendJobNameGo_ok (name : TopicName) (scope : ScopeValues)
    (hnd : (List.map Prod.fst scope).Nodup)
    (h : ∀ kv ∈ scope, tnHasKey name kv.1 = false) :
    extendJobNameGo name scope = .ok (name ++ scope) := by
  induction scope generalizing name with
  | nil => simp [extendJobNameGo]
  | cons kv rest ih =>
    have hk : tnHasKey name kv.1 = false := h kv (List.mem_cons_self _ _)
    rw [List.map_cons, List.nodup_cons] at hnd
    simp only [extendJobNameGo, hk, Bool.false_eq_true, if_false]
    rw [ih (name ++ [kv]) hnd.2 ?_]
    · rw [List.append_assoc]
      rfl
    · intro kv' hm
      rw [tnHasKey_listAppend]
      have h1 : tnHasKey name kv'.1 = false := h kv' (List.mem_cons_of_mem _ hm)
      have hne : kv.1 ≠ kv'.1 := by
        intro hcontra
        exact hnd.1 (hcontra ▸ List.mem_map_of_mem Prod.fst hm)
      have h2 : tnHasKey [kv] kv'.1 = false := by
        simp [tnHasKey, tnLookup, hne]
      rw [h1, h2]
      rfl

lemma extendJobNameGo_collides (name : TopicName) (scope : ScopeValues)
    (hnd : (List.map Prod.fst scope).Nodup)
    (hj : ∃ kv ∈ scope, tnHasKey name kv.1 = true) :
    ∃ k, extendJobNameGo name scope = .error k := by
  induction scope generalizing name with
  | nil => simp at hj
  | cons kv rest ih =>
    rw [List.map_cons, List.nodup_cons] at hnd
    by_cases hk : tnHasKey name kv.1 = true
    · exact ⟨kv.1, by simp [extendJobNameGo, hk]⟩
    · have hk' : tnHasKey name kv.1 = false := Bool.eq_false_iff.mpr hk
      simp only [extendJobNameGo, hk', Bool.false_eq_true, if_false]
      apply ih (name ++ [kv]) hnd.2
      obtain ⟨kv0, hkv0, hkey⟩ := hj
      rcases List.mem_cons.mp hkv0 with h0 | h0
      · exact absurd (h0 ▸ hkey) hk
      · refine ⟨kv0, h0, ?_⟩
        rw [tnHasKey_listAppend, hkey]
        rfl

lemma processScopeJobs_ok (scope : ScopeValues) (done jobs : List Job)
    (hnd : (List.map Prod.fst scope).Nodup)
    (h : ∀ j ∈ jobs, ∀ kv ∈ scope, tnHasKey j.name kv.1 = false) :
    processScopeJobs scope done jobs = .ok (done ++ jobs.map (jobInScope scope)) := by
  induction jobs generalizing done with
  | nil => simp [processScopeJobs]
  | cons j rest ih =>
    simp only [processScopeJobs, applyScopeToJob]
    rw [extendJobNameGo_ok j.name scope hnd (h j (List.mem_cons_self _ _))]
    dsimp only
    have hrest := ih (done ++ [jobInScope scope j])
      (fun j' hm kv hkv => h j' (List.mem_cons_of_mem _ hm) kv hkv)
    rw [List.map_cons]
    rw [List.append_assoc] at hrest
    exact hrest

lemma processScopeJobs_collides_of_exists (scope : ScopeValues)
    (done jobs : List Job) (hnd : (List.map Prod.fst scope).Nodup)
    (h : ∃ j ∈ jobs, ∃ kv ∈ scope, tnHasKey j.name kv.1 = true) :
    ∃ k after, processScopeJobs scope done jobs = .collisionError k after := by
  induction jobs generalizing done with
  | nil => simp at h
  | cons j rest ih =>
    by_cases hj : ∃ kv ∈ scope, tnHasKey j.name kv.1 = true
    · obtain ⟨k, hk⟩ := extendJobNameGo_collides j.name scope hnd hj
      exact ⟨k, done ++ j :: rest, by simp [processScopeJobs, applyScopeToJob, hk]⟩
    · have hclean : ∀ kv ∈ scope, tnHasKey j.name kv.1 = false := by
        intro kv hkv
        cases hb : tnHasKey j.name kv.1 with
        | false => rfl
        | true => exact absurd ⟨kv, hkv, hb⟩ hj
      simp only [processScopeJobs, applyScopeToJob]
      rw [extendJobNameGo_ok j.name scope hnd hclean]
      dsimp only
      apply ih
      obtain ⟨j0, hj0, hcoll⟩ := h
      rcases List.mem_cons.mp hj0 with h0 | h0
      · exact absurd (h0 ▸ hcoll) hj
      · exact ⟨j0, h0, hcoll⟩

lemma processScopeJobs_collision (scope : ScopeValues) (done pre : List Job)
    (j : Job) (post : List Job)
    (hnd : (List.map Prod.fst scope).Nodup)
    (hpre : ∀ j' ∈ pre, ∀ kv ∈ scope, tnHasKey j'.name kv.1 = false)
    (hj : ∃ kv ∈ scope, tnHasKey j.name kv.1 = true) :
    ∃ k, processScopeJobs scope done (pre ++ j :: post) =
      .collisionError k (done ++ (pre.map (jobInScope scope) ++ j :: post)) := by
  induction pre generalizing done with
  | nil =>
    obtain ⟨k, hk⟩ := extendJobNameGo_collides j.name scope hnd hj
    refine ⟨k, ?_⟩
    simp only [List.nil_append, List.map_nil, processScopeJobs, applyScopeToJob]
    rw [hk]
  | cons p rest ih =>
    simp only [List.cons_append, List.map_cons, processScopeJobs, applyScopeToJob]
    rw [extendJobNameGo_ok p.name scope hnd (hpre p (List.mem_cons_self _ _))]
    dsimp only
    obtain ⟨k, hk⟩ := ih (done ++ [jobInScope scope p])
      (fun j' hm kv hkv => hpre j' (List.mem_cons_of_mem _ hm) kv hkv)
    refine ⟨k, ?_⟩
    rw [List.append_assoc] at hk
    exact hk

/-- Claim C6: the scope wrapper fails with the arity ValueError unless
exactly one delivered payload is a ScopeValues; otherwise it extends each
returned job's topic name with every (key, value) of the scope, sets the
job's scope, and returns the list, failing with the collision ValueError
when a returned job's name already contains a scope key. -/
theorem add_scope_jobs_wrapper_spec (f : ScopeValues → List Job)
    (events : List (TopicName × GenEvent)) :
    ((scopePayloads events).length ≠ 1 →
      addScopeJobsWrapper f events = .arityError (scopePayloads events).length) ∧
    (∀ s : ScopeValues, scopePayloads events = [s] →
      (List.map Prod.fst s).Nodup →
      ((∀ j ∈ f s, ∀ kv ∈ s, tnHasKey j.name kv.1 = false) →
        addScopeJobsWrapper f events = .ok ((f s).map (jobInScope s))) ∧
      ((∃ j ∈ f s, ∃ kv ∈ s, tnHasKey j.name kv.1 = true) →
        ∃ k after, addScopeJobsWrapper f events = .collisionError k after)) := by
  constructor
  · intro hne
    unfold addScopeJobsWrapper
    rcases hsp : scopePayloads events with _ | ⟨s0, rest⟩
    · rfl
    · rcases rest with _ | ⟨s1, rest2⟩
      · rw [hsp] at hne
        simp at hne
      · rfl
  · intro s hsp hnd
    constructor
    · intro hclean
      unfold addScopeJobsWrapper
      rw [hsp]
      exact processScopeJobs_ok s [] (f s) hnd hclean
    · intro hex
      unfold addScopeJobsWrapper
      rw [hsp]
      obtain ⟨k, after, hk⟩ := processScopeJobs_collides_of_exists s [] (f s) hnd hex
      exact ⟨k, after, hk⟩

/-- A one-key scope instance. -/
def cScopeS : ScopeValues := [("date", "2024-01-01")]

/-- A delivered scope-instantiation event carrying cScopeS. -/
def cScopeEvent : GenEvent := ⟨[("scope", "s")], 1, .scopeValues cScopeS⟩

/-- A one-entry delivered-events mapping with the scope event. -/
def cEventsW : List (TopicName × GenEvent) := [([("scope", "s")], cScopeEvent)]

/-- A generated job whose name is free of scope keys. -/
def cGenJob : Job := ⟨[("base", "j1")], .runnerFn cJobFnA, [], none, [], none⟩

/-- A user function returning one clean job. -/
def cUserFn : ScopeValues → List Job := fun _ => [cGenJob]

/-- Witness for C6: one delivered ScopeValues, one clean returned job; the
wrapper returns the job renamed into the scope with its scope field set. -/
theorem add_scope_jobs_wrapper_spec_witness :
    addScopeJobsWrapper cUserFn cEventsW = .ok [jobInScope cScopeS cGenJob] := by
  exact ((add_scope_jobs_wrapper_spec cUserFn cEventsW).2 cScopeS rfl (by decide)).1
    (by decide)

/-- Claim C10: when the user function's returned list is a clean part, then
a job whose name holds a scope key, then a remainder, the wrapper raises
the collision error and at that point the jobs before the colliding index
have been renamed into the scope in place while the colliding job and the
remainder are untouched; the incomplete mutation is what the caller observes
through the shared Job objects. -/
theorem scope_wrapper_mutation_before_raise (f : ScopeValues → List Job)
    (events : List (TopicName × GenEvent)) (s : ScopeValues)
    (pre : List Job) (j : Job) (post : List Job)
    (hsp : scopePayloads events = [s])
    (hnd : (List.map Prod.fst s).Nodup)
    (hfs : f s = pre ++ j :: post)
    (hpre : ∀ j' ∈ pre, ∀ kv ∈ s, tnHasKey j'.name kv.1 = false)
    (hj : ∃ kv ∈ s, tnHasKey j.name kv.1 = true) :
    ∃ k, addScopeJobsWrapper f events =
      .collisionError k (pre.map (jobInScope s) ++ j :: post) := by
  unfold addScopeJobsWrapper
  rw [hsp]
  dsimp only
  rw [hfs]
  obtain ⟨k, hk⟩ := processScopeJobs_collision s [] pre j post hnd hpre hj
  exact ⟨k, hk⟩

/-- A generated job whose name already holds the scope key date. -/
def cCollJob : Job := ⟨[("base", "j2"), ("date", "x")], .runnerFn cJobFnA, [], none, [], none⟩

/-- A user function returning one clean job and then one colliding job. -/
def cUserFn2 : ScopeValues → List Job := fun _ => [cGenJob, cCollJob]

/-- Witness for C10: the wrapper raises on the second job; the first job is
already renamed into the scope at raise time, the colliding job is
untouched. -/
theorem scope_wrapper_mutation_before_raise_witness :
    addScopeJobsWrapper cUserFn2 cEventsW =
      .collisionError "date" [jobInScope cScopeS cGenJob, cCollJob] := by
  obtain ⟨k, hk⟩ := scope_wrapper_mutation_before_raise cUserFn2 cEventsW cScopeS
    [cGenJob] cCollJob [] rfl (by decide) rfl (by decide) (by decide)
  exact rfl
